import Mathlib

/-!
Verification of the tool-augmented streaming chat orchestrator of nano-MCP
(`src/llm/llm_mcp_client.py`, with the websocket wrapper of `src/llm/host.py`).

The Python code is shallowly embedded: strings are Lean `String`s manipulated
through their `List Char` data, the regular expressions of `parse_tool_calls`
and of the envelope detector are unfolded into explicit first-occurrence
searches with the same leftmost/non-greedy semantics, the provider stream and
the tool gateway are oracles supplied through an environment record, and the
recursive generator `interactive_stream_chat` becomes a function from that
environment to the produced event list and final conversation history.
The third-party `json_repair.repair_json` / `json.loads` pass is external to
the repository and is modelled as an abstract parameter
`repairParse : String -> Option JsonVal`.
-/

/-- Python whitespace (the set stripped by `str.strip()` and matched by
regex `\s`): space, tab, newline, carriage return, vertical tab, form feed. -/
def wsBool (c : Char) : Bool :=
  c = ' ' || c = '\t' || c = '\n' || c = '\r' || c = '\x0b' || c = '\x0c'

/-- True when the list is empty or its first character is not whitespace. -/
def headNotWs (l : List Char) : Bool :=
  match l with
  | [] => true
  | c :: _ => !wsBool c

/-- `str.strip()` on the character list: drop whitespace from both ends. -/
def stripChars (l : List Char) : List Char :=
  ((l.dropWhile wsBool).reverse.dropWhile wsBool).reverse

/-- All characters are whitespace (regex `\s*` matching the whole list). -/
def allWs (l : List Char) : Bool := l.all wsBool

/-- Index of the first occurrence of `pat` in `l` (Python `str.find` /
leftmost regex match of a literal), `none` when absent. -/
def findSub (pat : List Char) : List Char → Option Nat
  | [] => if pat.isPrefixOf ([] : List Char) then some 0 else none
  | c :: rest =>
      if pat.isPrefixOf (c :: rest) then some 0
      else (findSub pat rest).map (· + 1)

/-- Python's `pat in l` substring test. -/
def containsSub (pat l : List Char) : Bool := (findSub pat l).isSome

/-- The `<mcp_tool_call>` opening marker. -/
def openTagL : List Char := "<mcp_tool_call>".data

/-- The `</mcp_tool_call>` closing marker. -/
def closeTagL : List Char := "</mcp_tool_call>".data

/-- The `<tool_name>` tag. -/
def tnOpenL : List Char := "<tool_name>".data

/-- The `</tool_name>` tag. -/
def tnCloseL : List Char := "</tool_name>".data

/-- The `<arguments>` tag. -/
def argOpenL : List Char := "<arguments>".data

/-- The `</arguments>` tag. -/
def argCloseL : List Char := "</arguments>".data

/-- Structured JSON values: the arguments and results that cross the
gateway boundary. -/
inductive JsonVal where
  | null : JsonVal
  | bool : Bool → JsonVal
  | num : Int → JsonVal
  | str : String → JsonVal
  | arr : List JsonVal → JsonVal
  | obj : List (String × JsonVal) → JsonVal

/-- Python `d.get(k, default)` on a mapping.  The source applies it only to
dict values; on a non-mapping Python would raise `AttributeError`, a case no
modelled run reaches, and the model returns the default there. -/
def jsonGetOr (v : JsonVal) (k : String) (d : JsonVal) : JsonVal :=
  match v with
  | .obj fs =>
      match fs.find? (fun f => f.1 == k) with
      | some f => f.2
      | none => d
  | _ => d

/-- Python `"error" in result` as used at the dispatch site: key membership
for mappings, substring test for strings, element membership for lists.
On numbers, booleans and `None` Python would raise `TypeError`; no modelled
run reaches those cases and the model returns `false` there. -/
def hasErrorKey (v : JsonVal) : Bool :=
  match v with
  | .obj fs => fs.any (fun f => f.1 == "error")
  | .str s => containsSub "error".data s.data
  | .arr xs => xs.any (fun x => match x with | .str s => s == "error" | _ => false)
  | _ => false

/-- Python `result["error"]` on a mapping (the only case the modelled runs
reach; Python raises on non-mappings, modelled as `null`). -/
def jsonIndex (v : JsonVal) (k : String) : JsonVal :=
  match v with
  | .obj fs =>
      match fs.find? (fun f => f.1 == k) with
      | some f => f.2
      | none => .null
  | _ => .null

mutual
/-- Compact JSON serialization, standing in for Python's `json.dumps`
(the `indent=2` pretty-printing of the source is abstracted; no claim
inspects the serialized text). -/
def dumpJson : JsonVal → String
  | .null => "null"
  | .bool b => cond b "true" "false"
  | .num n => toString n
  | .str s => "\"" ++ s ++ "\""
  | .arr xs => "[" ++ dumpJsonList xs ++ "]"
  | .obj fs => "\x7b" ++ dumpJsonFields fs ++ "\x7d"

/-- Serialize the elements of a JSON array. -/
def dumpJsonList : List JsonVal → String
  | [] => ""
  | [x] => dumpJson x
  | x :: rest => dumpJson x ++ ", " ++ dumpJsonList rest

/-- Serialize the fields of a JSON object. -/
def dumpJsonFields : List (String × JsonVal) → String
  | [] => ""
  | [f] => "\"" ++ f.1 ++ "\": " ++ dumpJson f.2
  | f :: rest => "\"" ++ f.1 ++ "\": " ++ dumpJson f.2 ++ ", " ++ dumpJsonFields rest
end

/-- A parsed tool call: the dict `{"tool_name": ..., "arguments": ...}`
built by `parse_tool_calls`. -/
structure ToolCallRequest where
  tool_name : String
  arguments : JsonVal

/-- Group 2 of the inner regex
`^\s*<tool_name>(.*?)</tool_name>\s*<arguments>(.*?)($|</arguments>\s*$)`
applied to the text after `<arguments>`: the lazy `(.*?)` grows until either
the string ends or `</arguments>` followed by only whitespace begins. -/
def splitAtCloseWs : List Char → List Char
  | [] => []
  | c :: rest =>
      if argCloseL.isPrefixOf (c :: rest) && allWs ((c :: rest).drop argCloseL.length) then []
      else c :: splitAtCloseWs rest

/-- The `re.match` on the unwrapped form (source lines 232-239): on the
stripped content, `^\s*` then `<tool_name>(.*?)</tool_name>` (first closing
tag), `\s*<arguments>`, then group 2 as in `splitAtCloseWs`.  Returns the
raw (unstripped) name and argument groups. -/
def parseInner (content : List Char) : Option (List Char × List Char) :=
  let c := content.dropWhile wsBool
  if tnOpenL.isPrefixOf c then
    let rest := c.drop tnOpenL.length
    match findSub tnCloseL rest with
    | none => none
    | some i =>
        let name := rest.take i
        let rest2 := (rest.drop (i + tnCloseL.length)).dropWhile wsBool
        if argOpenL.isPrefixOf rest2 then
          some (name, splitAtCloseWs (rest2.drop argOpenL.length))
        else none
  else none

/-- `re.search` of `op(.*?)cl`: first occurrence of `op`, then the first
occurrence of `cl` after it; returns group 1 (the text between the tags). -/
def findBetween (op cl l : List Char) : Option (List Char) :=
  match findSub op l with
  | none => none
  | some i =>
      let rest := l.drop (i + op.length)
      match findSub cl rest with
      | none => none
      | some j => some (rest.take j)

/-- The tail of `parse_tool_calls` (source lines 268-293): empty argument
text parses as the empty mapping, otherwise the repair-then-parse pass runs;
its failure (`none`, the source's caught exception) drops the call. -/
def finishParse (repairParse : String → Option JsonVal)
    (toolName argsStr : List Char) : List ToolCallRequest :=
  if argsStr.isEmpty then [⟨⟨toolName⟩, JsonVal.obj []⟩]
  else
    match repairParse ⟨argsStr⟩ with
    | some v => [⟨⟨toolName⟩, v⟩]
    | none => []

/-- `LLMMCPClient.parse_tool_calls` (source lines 225-293).  The wrapped form
takes group 1 of `<mcp_tool_call>(.*?)</mcp_tool_call>`, strips it, requires
both a `<tool_name>(.*?)</tool_name>` match and an `<arguments>` start tag,
and treats everything after the start tag (closing tag included) as the raw
argument text; the unwrapped fallback is `parseInner`.  Both extracted
fields are stripped before the repair-then-parse pass. -/
def parse_tool_calls (repairParse : String → Option JsonVal)
    (content : String) : List ToolCallRequest :=
  let cl := content.data
  match findBetween openTagL closeTagL cl with
  | some blockRaw =>
      let block := stripChars blockRaw
      match findBetween tnOpenL tnCloseL block, findSub argOpenL block with
      | some nameRaw, some ai =>
          finishParse repairParse (stripChars nameRaw)
            (stripChars (block.drop (ai + argOpenL.length)))
      | _, _ => []
  | none =>
      match parseInner (stripChars cl) with
      | some (nameRaw, argsRaw) =>
          finishParse repairParse (stripChars nameRaw) (stripChars argsRaw)
      | none => []

/-- One HTTP attempt of the gateway `/execute` endpoint as the client sees
it: a 200 response with a JSON body, a non-200 response, or a raised
transport exception. -/
inductive HttpAttempt where
  | ok (body : JsonVal)
  | httpError (status : Nat) (text : String)
  | exn (msg : String)

/-- An attempt that is not a 200 response. -/
def isFailure : HttpAttempt → Bool
  | .ok _ => false
  | _ => true

/-- What `execute_tool` does with one attempt's outcome and the retry loop's
observable effects: attempts made, `asyncio.sleep(1)` delays taken, and the
returned result dict. -/
structure ExecTrace where
  attemptsMade : Nat
  sleeps : Nat
  result : JsonVal

/-- `{"error": s}`. -/
def errObj (s : String) : JsonVal := .obj [("error", .str s)]

/-- `max_retries = 3` (source line 144). -/
def max_retries : Nat := 3

/-- The retry loop of `execute_tool` (source lines 145-176), recursing on the
remaining loop iterations (`fuel = max_retries - attempt`).  On 200 the
result is `response.json().get("result", {})`; on a non-200 response or an
exception the loop sleeps and retries while `attempt < max_retries - 1`,
otherwise it returns the error dict built from the last failure.  The
fuel-0 case is the unreachable `return` after the `for` loop. -/
def execToolGo (attempts : Nat → HttpAttempt) : Nat → Nat → ExecTrace
  | _, 0 => ⟨0, 0, errObj "Maximum retries exceeded"⟩
  | attempt, fuel + 1 =>
      match attempts attempt with
      | .ok body => ⟨1, 0, jsonGetOr body "result" (.obj [])⟩
      | .httpError status text =>
          if attempt < max_retries - 1 then
            let t := execToolGo attempts (attempt + 1) fuel
            ⟨t.attemptsMade + 1, t.sleeps + 1, t.result⟩
          else
            ⟨1, 0, errObj ("Tool execution failed with status " ++ toString status ++ ": " ++ text)⟩
      | .exn m =>
          if attempt < max_retries - 1 then
            let t := execToolGo attempts (attempt + 1) fuel
            ⟨t.attemptsMade + 1, t.sleeps + 1, t.result⟩
          else
            ⟨1, 0, errObj m⟩

/-- `LLMMCPClient.execute_tool` with its observable retry behaviour. -/
def execute_tool_trace (attempts : Nat → HttpAttempt) : ExecTrace :=
  execToolGo attempts 0 max_retries

/-- `LLMMCPClient.execute_tool` (source lines 140-179): just the returned
result dict. -/
def execute_tool (attempts : Nat → HttpAttempt) : JsonVal :=
  (execute_tool_trace attempts).result

/-- The error dict `execute_tool` builds from its final failed attempt (the
`ok` case is irrelevant: it never reaches the error return). -/
def lastFailure : HttpAttempt → JsonVal
  | .httpError status text =>
      errObj ("Tool execution failed with status " ++ toString status ++ ": " ++ text)
  | .exn m => errObj m
  | .ok _ => errObj "Maximum retries exceeded"

/-- One `/batch-execute` round trip as the client sees it. -/
inductive BatchAttempt where
  | ok (results : List JsonVal)
  | httpError (text : String)
  | exn (msg : String)

/-- `LLMMCPClient.execute_batch_tools` (source lines 181-202): the parsed
response on 200, otherwise a single error dict. -/
def execute_batch_tools (resp : BatchAttempt) : List JsonVal :=
  match resp with
  | .ok results => results
  | .httpError text => [errObj ("Batch execution failed: " ++ text)]
  | .exn m => [errObj m]

/-- A dynamic Python value as stored in a conversation message's `content`:
a plain string, the dict `{"type": "text", "text": s}` built by the OpenAI
merge policy, some other dict (opaque), or a list of parts. -/
inductive PyVal where
  | str : String → PyVal
  | textDict : String → PyVal
  | dict : String → PyVal
  | list : List PyVal → PyVal

/-- `str(content)`, standing in for the f-string formatting of
`_add_message_groq`; callers in the orchestrator only pass strings, on which
it is the identity. -/
def pyFormat : PyVal → String
  | .str s => s
  | .textDict s => s
  | .dict d => d
  | .list _ => "[...]"

/-- One entry of `self.messages`. -/
structure Message where
  role : String
  content : PyVal

/-- Wrap new assistant content into a content-parts list (the `else` arm of
`_add_message_openai`'s assistant branch): a dict is kept, a list is taken
as is, a string becomes `[{"type": "text", "text": content}]`. -/
def wrapParts : PyVal → List PyVal
  | .list l => l
  | .str s => [.textDict s]
  | c => [c]

/-- Fold new assistant content into an existing content-parts list (the
merge arm of `_add_message_openai`): a dict is appended, a list extends,
a string is appended as `{"type": "text", "text": content}`. -/
def mergeParts (l : List PyVal) : PyVal → List PyVal
  | .list l2 => l ++ l2
  | .str s => l ++ [.textDict s]
  | c => l ++ [c]

/-- `LLMMCPClient._add_message_openai` (source lines 295-322): consecutive
assistant additions merge into the last assistant message's content-parts
list; everything else is appended as a new entry.  `no_tool` is ignored.
When the last message is an assistant entry whose content is not a list the
source would raise (`.append` on a non-list); initialized histories never
hold such an entry and the model leaves the log unchanged there. -/
def add_message_openai (msgs : List Message) (role : String) (content : PyVal)
    (_noTool : Bool) : List Message :=
  if role = "assistant" then
    match msgs.getLast? with
    | some last =>
        if last.role = "assistant" then
          match last.content with
          | .list l => msgs.dropLast ++ [⟨"assistant", .list (mergeParts l content)⟩]
          | _ => msgs
        else msgs ++ [⟨"assistant", .list (wrapParts content)⟩]
    | none => msgs ++ [⟨"assistant", .list (wrapParts content)⟩]
  else msgs ++ [⟨role, content⟩]

/-- `LLMMCPClient._add_message_groq` (source lines 324-332): with
`no_tool=True` the message keeps its role, otherwise it is appended with
role `"system"`. -/
def add_message_groq (msgs : List Message) (role : String) (content : PyVal)
    (noTool : Bool) : List Message :=
  if noTool then msgs ++ [⟨role, .str (pyFormat content)⟩]
  else msgs ++ [⟨"system", .str (pyFormat content)⟩]

/-- `LLMMCPClient.add_message` (source lines 334-346), dispatching on
`host_model`; any other host model leaves the log unchanged.  The lazy
re-initialization guard is outside this model: histories are built from
`initialMessages`. -/
def add_message (hostModel : String) (msgs : List Message) (role : String)
    (content : PyVal) (noTool : Bool) : List Message :=
  if hostModel = "openai" then add_message_openai msgs role content noTool
  else if hostModel = "groq" then add_message_groq msgs role content noTool
  else msgs

/-- The history seeded by `initialize` (source line 117): exactly one
system message carrying the generated system prompt. -/
def initialMessages (systemPrompt : String) : List Message :=
  [⟨"system", .str systemPrompt⟩]

/-- One `add_message` invocation, for quantifying over call sequences. -/
structure AddOp where
  role : String
  content : PyVal
  noTool : Bool

/-- Apply a sequence of `add_message` calls to a history. -/
def applyOps (hostModel : String) (msgs : List Message) : List AddOp → List Message
  | [] => msgs
  | op :: rest => applyOps hostModel (add_message hostModel msgs op.role op.content op.noTool) rest

/-- The tagged events `interactive_stream_chat` yields (wire-encoded as
`[TAG]payload`; the structured `TOOL_CALL`/`TOOL_RESULT` payloads are kept
structured), plus the `[STREAM_END]` marker `host.py` appends. -/
inductive Event where
  | llm : String → Event
  | system : String → Event
  | error : String → Event
  | rawToolCall : String → Event
  | toolCall : String → JsonVal → Event
  | toolResult : String → String → JsonVal → Event
  | streamEnd : Event

/-- `"Tool call detected. Processing..."`. -/
def detectMsg : String := "Tool call detected. Processing..."

/-- `"Executing tools..."`. -/
def execMsg : String := "Executing tools..."

/-- `"Tool execution finished. Asking LLM to continue..."`. -/
def contMsg : String := "Tool execution finished. Asking LLM to continue..."

/-- `"Maximum tool call depth reached. Stopping here."`. -/
def boundMsg : String := "Maximum tool call depth reached. Stopping here."

/-- `"Detected XML structure, but failed to parse valid tool calls."`. -/
def parseFailMsg : String := "Detected XML structure, but failed to parse valid tool calls."

/-- Event classifiers used to state the claims. -/
def isContEv : Event → Bool
  | .system s => s == contMsg
  | _ => false

/-- Bound-reached SYSTEM event. -/
def isBoundEv : Event → Bool
  | .system s => s == boundMsg
  | _ => false

/-- Detection SYSTEM event. -/
def isDetectEv : Event → Bool
  | .system s => s == detectMsg
  | _ => false

/-- Any ERROR event. -/
def isErrEv : Event → Bool
  | .error _ => true
  | _ => false

/-- Any TOOL_CALL event. -/
def isToolCallEv : Event → Bool
  | .toolCall _ _ => true
  | _ => false

/-- Any TOOL_RESULT event. -/
def isToolResEv : Event → Bool
  | .toolResult _ _ _ => true
  | _ => false

/-- Any RAW_TOOL_CALL event. -/
def isRawEv : Event → Bool
  | .rawToolCall _ => true
  | _ => false

/-- Any LLM event. -/
def isLlmEv : Event → Bool
  | .llm _ => true
  | _ => false

/-- One provider stream for one turn: the fragments it yields, and whether
it then completes or raises (after having yielded them all). -/
inductive StreamOutcome where
  | done (chunks : List String)
  | fault (chunks : List String) (err : String)

/-- Result of the fragment-consumption loop of `interactive_stream_chat`. -/
structure StreamRes where
  events : List Event
  seg : List Char
  detected : Bool
  started : Bool

/-- `re.search('(<mcp_tool_call>.*?</mcp_tool_call>)', seg)` at the detection
site (source lines 392-397): the raw envelope including both markers. -/
def findBlockWithTags (l : List Char) : Option (List Char) :=
  match findSub openTagL l with
  | none => none
  | some i =>
      match findSub closeTagL (l.drop (i + openTagL.length)) with
      | none => none
      | some j => some ((l.drop i).take (openTagL.length + j + closeTagL.length))

/-- The `async for chunk in stream_iterator` loop (source lines 380-405):
falsy fragments are skipped; while the buffer lacks `</mcp_tool_call>` each
fragment is re-emitted as an LLM event; on the first buffer containing the
marker the loop emits the detection SYSTEM event, the raw envelope when the
full-block search succeeds, and breaks. -/
def streamLoop : List String → List Char → Bool → StreamRes
  | [], seg, started => ⟨[], seg, false, started⟩
  | ch :: rest, seg, started =>
      if ch.isEmpty then streamLoop rest seg started
      else
        let seg2 := seg ++ ch.data
        if containsSub closeTagL seg2 then
          match findBlockWithTags seg2 with
          | some blk => ⟨[.system detectMsg, .rawToolCall ⟨stripChars blk⟩], seg2, true, started⟩
          | none => ⟨[.system detectMsg], seg2, true, started⟩
        else
          let r := streamLoop rest seg2 true
          ⟨.llm ch :: r.events, r.seg, r.detected, r.started⟩

/-- A tool outcome as accumulated in `tool_results_for_history`. -/
inductive OutcomeRec where
  | success : String → JsonVal → JsonVal → OutcomeRec
  | failure : String → JsonVal → JsonVal → OutcomeRec

/-- The history dict of one outcome. -/
def outcomeJson : OutcomeRec → JsonVal
  | .success n a r => .obj [("tool_name", .str n), ("arguments", a), ("result", r)]
  | .failure n a e => .obj [("tool_name", .str n), ("arguments", a), ("error", e)]

/-- `json.dumps(tool_results_for_history)` (formatting abstracted). -/
def dumpOutcomes (recs : List OutcomeRec) : String :=
  dumpJson (.arr (recs.map outcomeJson))

/-- The synthetic batch summary appended to History after dispatch
(source lines 486-489). -/
def outcomeContent (recs : List OutcomeRec) : String :=
  "Executed tools with results:\n" ++ dumpOutcomes recs

/-- The external collaborators of one session, indexed by recursion depth:
the provider stream, the single-call gateway attempts (per tool name,
arguments and attempt number), the batch gateway response, and the
repair-then-parse pass. -/
structure Env where
  stream : Nat → StreamOutcome
  http : Nat → String → JsonVal → Nat → HttpAttempt
  batchResp : Nat → List ToolCallRequest → BatchAttempt
  repairParse : String → Option JsonVal

/-- The single-call dispatch loop (source lines 460-482): for each call,
a TOOL_CALL event, then `execute_tool`, then a TOOL_RESULT event whose
status reflects the `"error" in result` test. -/
def singleDispatch (env : Env) (depth : Nat) :
    List ToolCallRequest → List Event × List OutcomeRec
  | [] => ([], [])
  | c :: rest =>
      let result := execute_tool (env.http depth c.tool_name c.arguments)
      let tail := singleDispatch env depth rest
      if hasErrorKey result then
        let e := jsonIndex result "error"
        (.toolCall c.tool_name c.arguments :: .toolResult c.tool_name "error" e :: tail.1,
         .failure c.tool_name c.arguments e :: tail.2)
      else
        (.toolCall c.tool_name c.arguments :: .toolResult c.tool_name "success" result :: tail.1,
         .success c.tool_name c.arguments result :: tail.2)

/-- Python truthiness of `result.get("success", True)`. -/
def pyTruthy : JsonVal → Bool
  | .null => false
  | .bool b => b
  | .num n => n != 0
  | .str s => !s.isEmpty
  | .arr xs => !xs.isEmpty
  | .obj fs => !fs.isEmpty

/-- The batch dispatch loop body (source lines 429-459), iterating the
returned outcomes in request order; extra results beyond the calls are
skipped by the `i < len(tool_calls)` guard (`zip` truncation). -/
def batchLoop : List (JsonVal × ToolCallRequest) → List Event × List OutcomeRec
  | [] => ([], [])
  | (result, c) :: rest =>
      let tail := batchLoop rest
      if pyTruthy (jsonGetOr result "success" (.bool true)) then
        let resData := jsonGetOr result "result" (.obj [])
        (.toolCall c.tool_name c.arguments :: .toolResult c.tool_name "success" resData :: tail.1,
         .success c.tool_name c.arguments resData :: tail.2)
      else
        let e := jsonGetOr result "error" (.str "Unknown error")
        (.toolCall c.tool_name c.arguments :: .toolResult c.tool_name "error" e :: tail.1,
         .failure c.tool_name c.arguments e :: tail.2)

/-- The batch dispatch path (source lines 427-459). -/
def batchDispatch (env : Env) (depth : Nat) (calls : List ToolCallRequest) :
    List Event × List OutcomeRec :=
  batchLoop ((execute_batch_tools (env.batchResp depth calls)).zip calls)

/-- The dispatch branch of the orchestrator (source lines 427-482): more
than one call goes to the batch path, otherwise each call is executed
singly. -/
def dispatchCalls (env : Env) (depth : Nat) (calls : List ToolCallRequest) :
    List Event × List OutcomeRec :=
  if calls.length > 1 then batchDispatch env depth calls
  else singleDispatch env depth calls

/-- Outcome of one turn's body: either the turn is terminal, or the
orchestrator must recurse with the new history. -/
inductive TurnResult where
  | ended : List Event → List Message → TurnResult
  | continued : List Event → List Message → TurnResult

/-- Everything after the fragment loop in one turn of
`interactive_stream_chat` (source lines 413-500): record the accumulated
segment as an assistant message (non-mergeable when no tool call was
detected), then on detection run `parse_tool_calls` and either dispatch,
append the batch summary, and signal continuation, or emit the parse-failure
ERROR; with no detection the turn just ends. -/
def afterStream (env : Env) (hostModel : String) (msgs1 : List Message)
    (depth : Nat) (sl : StreamRes) : TurnResult :=
  let msgs2 :=
    if sl.seg.isEmpty then msgs1
    else add_message hostModel msgs1 "assistant" (.str ⟨sl.seg⟩) (!sl.detected)
  if sl.detected then
    let calls := parse_tool_calls env.repairParse ⟨sl.seg⟩
    if calls.isEmpty then
      .ended (sl.events ++ [.error parseFailMsg]) msgs2
    else
      let d := dispatchCalls env depth calls
      let msgs3 := add_message hostModel msgs2 "assistant" (.str (outcomeContent d.2)) false
      .continued
        (sl.events ++ .system execMsg :: d.1 ++ [.llm "___\n\n", .system contMsg]) msgs3
  else .ended sl.events msgs2

/-- One turn of `interactive_stream_chat` below the depth guard (source
lines 367-500): seed the user message at depth 0 when it is truthy, drive
the stream; a fault raised while the loop was still consuming (no break)
emits one ERROR event, records the fault as an assistant message, and ends
the turn. -/
def runTurn (env : Env) (hostModel : String) (userMessage : Option String)
    (msgs0 : List Message) (depth : Nat) : TurnResult :=
  let msgs1 :=
    match userMessage with
    | some um =>
        if !um.isEmpty && depth == 0 then add_message hostModel msgs0 "user" (.str um) true
        else msgs0
    | none => msgs0
  match env.stream depth with
  | .done chunks => afterStream env hostModel msgs1 depth (streamLoop chunks [] false)
  | .fault chunks err =>
      let sl := streamLoop chunks [] false
      if sl.detected then afterStream env hostModel msgs1 depth sl
      else
        .ended (sl.events ++ [.error ("Error during LLM stream: " ++ err)])
          (add_message hostModel msgs1 "assistant"
            (.str ("Error during LLM stream: " ++ err)) false)

/-- `interactive_stream_chat` with the `depth >= max_depth` guard encoded
structurally: `fuel = max_depth - depth` in every call, so `fuel = 0` is
exactly the guard firing (one bound-reached SYSTEM event, stop), and the
recursive continuation passes `depth + 1` with `fuel - 1`. -/
def iscFuel (env : Env) (hostModel : String) :
    Nat → Option String → List Message → Nat → Nat → List Event × List Message
  | 0, _, msgs, _, _ => ([.system boundMsg], msgs)
  | fuel + 1, userMessage, msgs0, depth, maxDepth =>
      match runTurn env hostModel userMessage msgs0 depth with
      | .ended evs m => (evs, m)
      | .continued evs m =>
          let r := iscFuel env hostModel fuel none m (depth + 1) maxDepth
          (evs ++ r.1, r.2)

/-- `LLMMCPClient.interactive_stream_chat` (source lines 353-500): the
full event trace of the recursion from `depth` under bound `maxDepth`,
with the final history. -/
def interactive_stream_chat (env : Env) (hostModel : String)
    (userMessage : Option String) (msgs : List Message)
    (depth maxDepth : Nat) : List Event × List Message :=
  iscFuel env hostModel (maxDepth - depth) userMessage msgs depth maxDepth

/-- One websocket turn of `host.py` (source lines 97-104): forward every
chunk of `interactive_stream_chat(user_message)` (every yielded chunk is a
non-empty tagged string, so the `if chunk` guard always passes) with the
source's default depth 0 and bound 15, then send `[STREAM_END]`. -/
def hostTurn (env : Env) (hostModel : String) (userMessage : String)
    (msgs : List Message) : List Event × List Message :=
  let r := interactive_stream_chat env hostModel (some userMessage) msgs 0 15
  (r.1 ++ [.streamEnd], r.2)

/-- The hypothesis of the depth-bound claim: at depth `d` the provider
stream completes, the detector fires, and extraction yields a call. -/
def turnProducesCall (env : Env) (d : Nat) : Bool :=
  match env.stream d with
  | .done chunks =>
      let sl := streamLoop chunks [] false
      sl.detected && !(parse_tool_calls env.repairParse ⟨sl.seg⟩).isEmpty
  | .fault _ _ => false

/-- Concatenation of all stream fragments: the final buffer of a
narration-only turn. -/
def concatChunks : List String → List Char
  | [] => []
  | c :: rest => c.data ++ concatChunks rest

/-- The wrapped envelope form `<mcp_tool_call><tool_name>NAME</tool_name>
<arguments>ARGS</arguments></mcp_tool_call>`. -/
def wrapEnv (name args : String) : String :=
  "<mcp_tool_call><tool_name>" ++ name ++ "</tool_name><arguments>" ++ args
    ++ "</arguments></mcp_tool_call>"

/-- The unwrapped fallback form `<tool_name>NAME</tool_name>
<arguments>ARGS</arguments>`. -/
def bareEnv (name args : String) : String :=
  "<tool_name>" ++ name ++ "</tool_name><arguments>" ++ args ++ "</arguments>"

/-- A concrete envelope whose `<arguments>` section is empty (and whose
closing argument tag is missing, which the extractor tolerates). -/
def demoEnvelope : String :=
  "<mcp_tool_call><tool_name>t</tool_name><arguments></mcp_tool_call>"

/-- A session whose provider always narrates and then emits
`demoEnvelope`, against an always-succeeding gateway. -/
def demoEnv : Env where
  stream := fun _ => .done ["hi ", demoEnvelope]
  http := fun _ _ _ _ => .ok (.obj [("result", .obj [("ok", .str "yes")])])
  batchResp := fun _ _ => .ok []
  repairParse := fun _ => none

/-- A session whose provider emits an envelope with no `<tool_name>` tag,
so extraction fails. -/
def badParseEnv : Env where
  stream := fun _ => .done ["<mcp_tool_call>junk</mcp_tool_call>"]
  http := fun _ _ _ _ => .ok (.obj [])
  batchResp := fun _ _ => .ok []
  repairParse := fun _ => none

/-- A session whose provider yields one fragment and then raises. -/
def faultEnv : Env where
  stream := fun _ => .fault ["partial"] "boom"
  http := fun _ _ _ _ => .ok (.obj [])
  batchResp := fun _ _ => .ok []
  repairParse := fun _ => none

/-- A narration-only session (the buffer never contains the closing
marker). -/
def narrationEnv : Env where
  stream := fun _ => .done ["hello ", "", "world"]
  http := fun _ _ _ _ => .ok (.obj [])
  batchResp := fun _ _ => .ok []
  repairParse := fun _ => none

/-- A repair-then-parse stand-in accepting the argument text `[1]` in both
raw forms the extractor produces. -/
def demoRepair : String → Option JsonVal := fun s =>
  if s = "[1]" then some (.arr [.num 1])
  else if s = "[1]</arguments>" then some (.arr [.num 1])
  else none

/-- A freshly initialized demo history. -/
def demoInit : List Message := initialMessages "sys"

/-- One `add_message` call recording an assistant text with
`no_tool=False` (the shape the orchestrator uses for tool outcomes). -/
def demoOp : AddOp := ⟨"assistant", .str "x", false⟩

/-- The history predicate counted in the uniqueness claims. -/
def isSystemRole (m : Message) : Bool := m.role == "system"

/-! ### Substring-search lemmas -/

theorem findSub_of_pre (pat l : List Char) (h : pat.isPrefixOf l = true) :
    findSub pat l = some 0 := by
  cases l <;> simp [findSub, h]

theorem findSub_cons_not (pat : List Char) (c : Char) (l : List Char)
    (h : pat.isPrefixOf (c :: l) = false) :
    findSub pat (c :: l) = (findSub pat l).map (· + 1) := by
  simp [findSub, h]

theorem isPre_false_of_head_ne (pat x : List Char) (ch c : Char)
    (hp : pat.head? = some ch) (hx : x.head? = some c) (hne : c ≠ ch) :
    pat.isPrefixOf x = false := by
  cases pat with
  | nil => simp at hp
  | cons p ps =>
    cases x with
    | nil => simp at hx
    | cons y ys =>
      simp only [List.head?_cons, Option.some.injEq] at hp hx
      subst hp; subst hx
      simp [List.isPrefixOf]
      intro h
      exact absurd h.symm hne

theorem findSub_append_clean (ch : Char) (pat a b : List Char)
    (hp : pat.head? = some ch) (ha : ∀ c ∈ a, c ≠ ch) :
    findSub pat (a ++ b) = (findSub pat b).map (· + a.length) := by
  induction a with
  | nil =>
    simp only [List.nil_append, List.length_nil]
    cases h : findSub pat b <;> simp [h]
  | cons c a' ih =>
    have hnp : pat.isPrefixOf (c :: (a' ++ b)) = false :=
      isPre_false_of_head_ne pat _ ch c hp rfl (ha c (by simp))
    have ih' := ih (fun d hd => ha d (by simp [hd]))
    rw [List.cons_append, findSub_cons_not pat c _ hnp, ih']
    cases h : findSub pat b <;> simp [h] <;> omega

theorem prefix_of_prefix_append (z x b : List Char) (h : z <+: x ++ b)
    (hl : z.length ≤ x.length) : z <+: x := by
  have h2 := List.prefix_iff_eq_take.mp h
  rw [List.take_append_eq_append_take, Nat.sub_eq_zero_of_le hl] at h2
  simp at h2
  rw [h2]
  exact List.take_prefix _ _

theorem isPre_append_left (pat x b : List Char)
    (h : pat.isPrefixOf (x ++ b) = true) :
    (pat.take x.length).isPrefixOf x = true := by
  rw [List.isPrefixOf_iff_prefix] at h ⊢
  have h1 : pat.take x.length <+: x ++ b :=
    ( List.take_prefix _ _).trans h
  exact prefix_of_prefix_append _ _ _ h1 (by simp)

theorem findSub_skip_lit (pat lit b : List Char)
    (h : ∀ k, k < lit.length →
      (pat.take (lit.length - k)).isPrefixOf (lit.drop k) = false) :
    findSub pat (lit ++ b) = (findSub pat b).map (· + lit.length) := by
  induction lit with
  | nil =>
    simp only [List.nil_append, List.length_nil]
    cases h' : findSub pat b <;> simp [h']
  | cons c lit' ih =>
    have hnp : pat.isPrefixOf (c :: (lit' ++ b)) = false := by
      by_contra hcon
      have htrue : pat.isPrefixOf ((c :: lit') ++ b) = true := by
        simpa using eq_true_of_ne_false hcon
      have hpre := isPre_append_left pat (c :: lit') b htrue
      have h0 := h 0 (by simp)
      simp only [Nat.sub_zero, List.drop_zero, List.length_cons] at h0
      simp only [List.length_cons] at hpre
      rw [hpre] at h0
      exact absurd h0 (by simp)
    have ih' := ih (fun k hk => by
      have := h (k + 1) (by simp; omega)
      simpa [Nat.succ_sub_succ] using this)
    rw [List.cons_append, findSub_cons_not pat c _ hnp, ih']
    cases h' : findSub pat b <;> simp [h'] <;> omega

theorem containsSub_mono (p a b : List Char) (h : containsSub p a = true) :
    containsSub p (a ++ b) = true := by
  induction a with
  | nil =>
    have hp : p.isPrefixOf ([] : List Char) = true := by
      by_contra hcon
      have hfalse : p.isPrefixOf ([] : List Char) = false := by
        cases hb : p.isPrefixOf ([] : List Char) with
        | false => rfl
        | true => exact absurd hb hcon
      simp [containsSub, findSub, hfalse] at h
    have hpnil : p = [] := by
      rw [List.isPrefixOf_iff_prefix] at hp
      simpa using hp
    subst hpnil
    have hfb : findSub ([] : List Char) b = some 0 :=
      findSub_of_pre _ _ (by rw [List.isPrefixOf_iff_prefix]; exact List.nil_prefix)
    simp [containsSub, hfb]
  | cons c a' ih =>
    by_cases hp : p.isPrefixOf (c :: (a' ++ b)) = true
    · have hfs := findSub_of_pre _ _ hp
      unfold containsSub
      rw [List.cons_append, hfs]
      rfl
    · have hp' : p.isPrefixOf (c :: (a' ++ b)) = false := by
        cases hb : p.isPrefixOf (c :: (a' ++ b)) with
        | false => rfl
        | true => exact absurd hb hp
      have hp2 : p.isPrefixOf (c :: a') = false := by
        cases hb : p.isPrefixOf (c :: a') with
        | false => rfl
        | true =>
          have h1 : p <+: c :: a' := List.isPrefixOf_iff_prefix.mp hb
          have h2 : p <+: c :: (a' ++ b) := by
            have := h1.trans (List.prefix_append (c :: a') b)
            simpa using this
          have h3 := List.isPrefixOf_iff_prefix.mpr h2
          rw [h3] at hp'
          exact absurd hp' (by simp)
      have ha' : containsSub p a' = true := by
        unfold containsSub at h
        rw [findSub_cons_not p c a' hp2] at h
        simpa [containsSub] using h
      have hres := ih ha'
      unfold containsSub at hres ⊢
      rw [List.cons_append, findSub_cons_not p c (a' ++ b) hp']
      simpa using hres

theorem containsSub_anti (p a b : List Char)
    (h : containsSub p (a ++ b) = false) : containsSub p a = false := by
  by_contra hcon
  have htrue : containsSub p a = true := by
    cases hb : containsSub p a with
    | true => rfl
    | false => exact absurd hb hcon
  rw [containsSub_mono p a b htrue] at h
  exact absurd h (by simp)

/-! ### Strip and whitespace lemmas -/

theorem dropWhileWs_eq_self (l : List Char) (h : headNotWs l = true) :
    l.dropWhile wsBool = l := by
  cases l with
  | nil => simp
  | cons c t =>
    simp [headNotWs] at h
    simp [List.dropWhile, h]

theorem stripChars_eq_self (l : List Char) (h1 : headNotWs l = true)
    (h2 : headNotWs l.reverse = true) : stripChars l = l := by
  unfold stripChars
  rw [dropWhileWs_eq_self l h1, dropWhileWs_eq_self _ h2, List.reverse_reverse]

theorem splitAtCloseWs_append (args : List Char)
    (h : ∀ c ∈ args, c ≠ '<') :
    splitAtCloseWs (args ++ argCloseL) = args := by
  induction args with
  | nil => decide
  | cons c args' ih =>
    have hnp : argCloseL.isPrefixOf (c :: (args' ++ argCloseL)) = false :=
      isPre_false_of_head_ne argCloseL _ '<' c (by decide) rfl (h c (by simp))
    rw [List.cons_append]
    unfold splitAtCloseWs
    rw [hnp]
    simp only [Bool.false_and, if_neg (by simp : ¬(false = true))]
    exact congrArg (c :: ·) (ih (fun d hd => h d (by simp [hd])))

/-! ### Detector-loop lemmas -/

theorem streamLoop_countP (p : Event → Bool) (hl : ∀ s, p (.llm s) = false)
    (hd : p (.system detectMsg) = false) (hr : ∀ s, p (.rawToolCall s) = false) :
    ∀ chunks seg started, ((streamLoop chunks seg started).events).countP p = 0 := by
  intro chunks
  induction chunks with
  | nil => intro seg started; simp [streamLoop]
  | cons ch rest ih =>
    intro seg started
    by_cases he : ch.isEmpty = true
    · simp [streamLoop, he, ih]
    · by_cases hc : containsSub closeTagL (seg ++ ch.data) = true
      · cases hb : findBlockWithTags (seg ++ ch.data) <;>
          simp [streamLoop, he, hc, hb, List.countP_cons, hd, hr]
      · simp [streamLoop, he, hc, List.countP_cons, hl, ih]

theorem streamLoop_undetected_countP (p : Event → Bool)
    (hl : ∀ s, p (.llm s) = false) :
    ∀ chunks seg started, (streamLoop chunks seg started).detected = false →
      ((streamLoop chunks seg started).events).countP p = 0 := by
  intro chunks
  induction chunks with
  | nil => intro seg started _; simp [streamLoop]
  | cons ch rest ih =>
    intro seg started hdet
    by_cases he : ch.isEmpty = true
    · simp only [streamLoop, he, if_pos] at hdet ⊢
      exact ih seg started hdet
    · by_cases hc : containsSub closeTagL (seg ++ ch.data) = true
      · exfalso
        cases hb : findBlockWithTags (seg ++ ch.data) <;>
          simp [streamLoop, he, hc, hb] at hdet
      · have hdet' : (streamLoop rest (seg ++ ch.data) true).detected = false := by
          simp only [streamLoop, he, hc] at hdet
          simpa using hdet
        have ih' := ih (seg ++ ch.data) true hdet'
        simp [streamLoop, he, hc, List.countP_cons, hl, ih']

theorem streamLoop_no_close :
    ∀ chunks seg started,
      containsSub closeTagL (seg ++ concatChunks chunks) = false →
      (streamLoop chunks seg started).events
          = (chunks.filter (fun c => !c.isEmpty)).map Event.llm
        ∧ (streamLoop chunks seg started).seg = seg ++ concatChunks chunks
        ∧ (streamLoop chunks seg started).detected = false := by
  intro chunks
  induction chunks with
  | nil =>
    intro seg started _
    simp [streamLoop, concatChunks]
  | cons ch rest ih =>
    intro seg started h
    by_cases he : ch.isEmpty = true
    · have hdata : ch.data = [] := by
        rw [String.isEmpty_iff] at he
        subst he; rfl
      have h' : containsSub closeTagL (seg ++ concatChunks rest) = false := by
        simpa [concatChunks, hdata] using h
      have := ih seg started h'
      simp [streamLoop, he, concatChunks, hdata, this]
    · have hassoc : seg ++ concatChunks (ch :: rest)
          = (seg ++ ch.data) ++ concatChunks rest := by
        simp [concatChunks, List.append_assoc]
      have hc : containsSub closeTagL (seg ++ ch.data) = false := by
        apply containsSub_anti _ _ (concatChunks rest)
        rw [← hassoc]
        exact h
      have h2 : containsSub closeTagL ((seg ++ ch.data) ++ concatChunks rest) = false := by
        rw [← hassoc]; exact h
      have := ih (seg ++ ch.data) true h2
      simp [streamLoop, he, hc, this, concatChunks, List.append_assoc]

/-! ### Dispatch lemmas -/

theorem singleDispatch_countP (env : Env) (depth : Nat) (p : Event → Bool)
    (h1 : ∀ n a, p (.toolCall n a) = false)
    (h2 : ∀ n s d, p (.toolResult n s d) = false) :
    ∀ calls, ((singleDispatch env depth calls).1).countP p = 0 := by
  intro calls
  induction calls with
  | nil => simp [singleDispatch]
  | cons c rest ih =>
    by_cases he : hasErrorKey (execute_tool (env.http depth c.tool_name c.arguments)) = true
    · simp [singleDispatch, he, List.countP_cons, h1, h2, ih]
    · simp [singleDispatch, he, List.countP_cons, h1, h2, ih]

theorem batchLoop_countP (p : Event → Bool)
    (h1 : ∀ n a, p (.toolCall n a) = false)
    (h2 : ∀ n s d, p (.toolResult n s d) = false) :
    ∀ pairs, ((batchLoop pairs).1).countP p = 0 := by
  intro pairs
  induction pairs with
  | nil => simp [batchLoop]
  | cons pr rest ih =>
    by_cases hs : pyTruthy (jsonGetOr pr.1 "success" (.bool true)) = true
    · simp [batchLoop, hs, List.countP_cons, h1, h2, ih]
    · simp [batchLoop, hs, List.countP_cons, h1, h2, ih]

theorem dispatchCalls_countP (env : Env) (depth : Nat) (p : Event → Bool)
    (h1 : ∀ n a, p (.toolCall n a) = false)
    (h2 : ∀ n s d, p (.toolResult n s d) = false) (calls : List ToolCallRequest) :
    ((dispatchCalls env depth calls).1).countP p = 0 := by
  unfold dispatchCalls
  by_cases hlen : calls.length > 1
  · simp [hlen, batchDispatch, batchLoop_countP p h1 h2]
  · simp [hlen, singleDispatch_countP env depth p h1 h2]

/-! ### History lemmas -/

theorem add_message_openai_last_assistant (msgs : List Message) (content : PyVal)
    (noTool : Bool) :
    ((add_message "openai" msgs "assistant" content noTool).getLast?).map Message.role
      = some "assistant" := by
  have hdisp : add_message "openai" msgs "assistant" content noTool
      = add_message_openai msgs "assistant" content noTool := by
    simp [add_message]
  rw [hdisp]
  unfold add_message_openai
  cases hL : msgs.getLast? with
  | none => simp [List.getLast?_concat]
  | some last =>
    by_cases hr : last.role = "assistant"
    · cases hc : last.content with
      | list l => simp [hr, hc, List.getLast?_concat]
      | str s => simp [hr, hc, hL]
      | textDict s => simp [hr, hc, hL]
      | dict d => simp [hr, hc, hL]
    · simp [hr, List.getLast?_concat]

theorem countP_add_message_openai_of_ne (msgs : List Message) (role : String)
    (content : PyVal) (noTool : Bool) (hrole : (role == "system") = false) :
    (add_message_openai msgs role content noTool).countP isSystemRole
      = msgs.countP isSystemRole := by
  unfold add_message_openai
  by_cases ha : role = "assistant"
  · subst ha
    cases hL : msgs.getLast? with
    | none => simp [List.countP_append, isSystemRole]
    | some last =>
      by_cases hr : last.role = "assistant"
      · cases hc : last.content with
        | list l =>
          have hsplit : msgs.dropLast ++ [last] = msgs :=
            List.dropLast_append_getLast? last hL
          have hcount : msgs.countP isSystemRole
              = msgs.dropLast.countP isSystemRole + (if isSystemRole last then 1 else 0) := by
            conv_lhs => rw [← hsplit]
            simp [List.countP_append, List.countP_cons]
          have hlastrole : isSystemRole last = false := by
            simp [isSystemRole, hr]
          simp [hr, hc, List.countP_append, List.countP_cons, hcount, hlastrole, isSystemRole]
        | str s => simp [hr, hc]
        | textDict s => simp [hr, hc]
        | dict d => simp [hr, hc]
      · simp [hr, List.countP_append, List.countP_cons, isSystemRole]
  · simp [ha, List.countP_append, List.countP_cons, isSystemRole, hrole]

theorem head_add_message (hm : String) (msgs : List Message) (role : String)
    (content : PyVal) (noTool : Bool) (m0 : Message) (h : msgs.head? = some m0)
    (hrole : m0.role ≠ "assistant") :
    (add_message hm msgs role content noTool).head? = some m0 := by
  unfold add_message
  by_cases h1 : hm = "openai"
  · simp only [h1, if_pos]
    unfold add_message_openai
    by_cases ha : role = "assistant"
    · simp only [ha, if_pos]
      cases hL : msgs.getLast? with
      | none => simp [List.head?_append, h]
      | some last =>
        by_cases hr : last.role = "assistant"
        · cases hc : last.content with
          | list l =>
            simp only [hr, if_pos, hc]
            cases msgs with
            | nil => simp at h
            | cons a t =>
              cases t with
              | nil =>
                exfalso
                simp at hL h
                subst hL
                subst h
                exact hrole hr
              | cons b t' =>
                simp only [List.head?_cons, Option.some.injEq] at h
                subst h
                simp [List.dropLast]
          | str s => simp [hr, hc, h]
          | textDict s => simp [hr, hc, h]
          | dict d => simp [hr, hc, h]
        · simp [hr, List.head?_append, h]
    · simp [ha, List.head?_append, h]
  · by_cases h2 : hm = "groq"
    · cases noTool <;> simp [h1, h2, add_message_groq, List.head?_append, h]
    · simp [h1, h2, h]

/-! ### Claim C6 -/

/-- C6: when every gateway attempt for a single tool call fails (non-200
response or transport fault), `execute_tool` makes exactly 3 attempts with a
fixed `asyncio.sleep(1)` delay between consecutive attempts (2 sleeps), and
returns the error outcome built from the last failure. -/
theorem execute_tool_retries_three_times (attempts : Nat → HttpAttempt)
    (h : ∀ i, i < 3 → isFailure (attempts i) = true) :
    execute_tool_trace attempts
        = ⟨3, 2, lastFailure (attempts 2)⟩
      ∧ execute_tool attempts = lastFailure (attempts 2) := by
  have h0 := h 0 (by omega)
  have h1 := h 1 (by omega)
  have h2 := h 2 (by omega)
  have htrace : execute_tool_trace attempts = ⟨3, 2, lastFailure (attempts 2)⟩ := by
    unfold execute_tool_trace
    cases ha0 : attempts 0 with
    | ok b => rw [ha0] at h0; simp [isFailure] at h0
    | httpError st tx =>
      cases ha1 : attempts 1 with
      | ok b => rw [ha1] at h1; simp [isFailure] at h1
      | httpError st1 tx1 =>
        cases ha2 : attempts 2 with
        | ok b => rw [ha2] at h2; simp [isFailure] at h2
        | httpError st2 tx2 => simp [execToolGo, max_retries, ha0, ha1, ha2, lastFailure]
        | exn m2 => simp [execToolGo, max_retries, ha0, ha1, ha2, lastFailure]
      | exn m1 =>
        cases ha2 : attempts 2 with
        | ok b => rw [ha2] at h2; simp [isFailure] at h2
        | httpError st2 tx2 => simp [execToolGo, max_retries, ha0, ha1, ha2, lastFailure]
        | exn m2 => simp [execToolGo, max_retries, ha0, ha1, ha2, lastFailure]
    | exn m =>
      cases ha1 : attempts 1 with
      | ok b => rw [ha1] at h1; simp [isFailure] at h1
      | httpError st1 tx1 =>
        cases ha2 : attempts 2 with
        | ok b => rw [ha2] at h2; simp [isFailure] at h2
        | httpError st2 tx2 => simp [execToolGo, max_retries, ha0, ha1, ha2, lastFailure]
        | exn m2 => simp [execToolGo, max_retries, ha0, ha1, ha2, lastFailure]
      | exn m1 =>
        cases ha2 : attempts 2 with
        | ok b => rw [ha2] at h2; simp [isFailure] at h2
        | httpError st2 tx2 => simp [execToolGo, max_retries, ha0, ha1, ha2, lastFailure]
        | exn m2 => simp [execToolGo, max_retries, ha0, ha1, ha2, lastFailure]
  exact ⟨htrace, by unfold execute_tool; rw [htrace]⟩

/-- C6 witness: a gateway that always answers HTTP 500. -/
theorem execute_tool_retries_three_times_witness :
    execute_tool_trace (fun _ => .httpError 500 "boom")
        = ⟨3, 2, errObj ("Tool execution failed with status 500: boom")⟩
      ∧ execute_tool (fun _ => .httpError 500 "boom")
        = errObj ("Tool execution failed with status 500: boom") :=
  execute_tool_retries_three_times (fun _ => .httpError 500 "boom") (fun _ _ => rfl)

/-! ### Claim C7 -/

/-- C7: `parse_tool_calls` returns at most one call for every input, so the
multi-call branch of the orchestrator's dispatch (the `len(tool_calls) > 1`
path into `execute_batch_tools`) is unreachable: dispatch always takes the
single-call path. -/
theorem parse_tool_calls_at_most_one (rp : String → Option JsonVal)
    (content : String) (env : Env) (depth : Nat) :
    (parse_tool_calls rp content).length ≤ 1
      ∧ dispatchCalls env depth (parse_tool_calls rp content)
        = singleDispatch env depth (parse_tool_calls rp content) := by
  have hlen : ∀ (tn as : List Char), (finishParse rp tn as).length ≤ 1 := by
    intro tn as
    unfold finishParse
    by_cases he : as.isEmpty = true
    · simp [he]
    · cases hr : rp ⟨as⟩ <;> simp [he, hr]
  have hmain : (parse_tool_calls rp content).length ≤ 1 := by
    unfold parse_tool_calls
    cases hb : findBetween openTagL closeTagL content.data with
    | some blockRaw =>
      cases h1 : findBetween tnOpenL tnCloseL (stripChars blockRaw) with
      | some nameRaw =>
        cases h2 : findSub argOpenL (stripChars blockRaw) with
        | some ai =>
          simp only [hb, h1, h2]
          exact hlen _ _
        | none => simp [hb, h1, h2]
      | none =>
        cases h2 : findSub argOpenL (stripChars blockRaw) <;> simp [hb, h1, h2]
    | none =>
      cases hi : parseInner (stripChars content.data) with
      | some pr =>
        cases pr
        simp only [hb, hi]
        exact hlen _ _
      | none => simp [hb, hi]
  refine ⟨hmain, ?_⟩
  unfold dispatchCalls
  have hnot : ¬((parse_tool_calls rp content).length > 1) := by omega
  simp [hnot]

/-! ### Claim C10 -/

theorem streamLoop_detect_no_open :
    ∀ chunks seg started, (streamLoop chunks seg started).detected = true →
      containsSub openTagL (streamLoop chunks seg started).seg = false →
      ((streamLoop chunks seg started).events).countP isRawEv = 0
        ∧ ((streamLoop chunks seg started).events).countP isDetectEv = 1 := by
  intro chunks
  induction chunks with
  | nil =>
    intro seg started hdet _
    simp [streamLoop] at hdet
  | cons ch rest ih =>
    intro seg started hdet hopen
    by_cases he : ch.isEmpty = true
    · simp only [streamLoop, he, if_pos] at hdet hopen ⊢
      exact ih seg started hdet hopen
    · by_cases hc : containsSub closeTagL (seg ++ ch.data) = true
      · cases hb : findBlockWithTags (seg ++ ch.data) with
        | some blk =>
          exfalso
          have hseg : (streamLoop (ch :: rest) seg started).seg = seg ++ ch.data := by
            simp [streamLoop, he, hc, hb]
          rw [hseg] at hopen
          have hcontra : containsSub openTagL (seg ++ ch.data) = true := by
            unfold findBlockWithTags at hb
            cases hf : findSub openTagL (seg ++ ch.data) with
            | none => rw [hf] at hb; simp at hb
            | some i => simp [containsSub, hf]
          rw [hcontra] at hopen
          exact absurd hopen (by simp)
        | none =>
          simp [streamLoop, he, hc, hb, List.countP_cons, isRawEv, isDetectEv]
      · have hseg2 : (streamLoop (ch :: rest) seg started).detected
            = (streamLoop rest (seg ++ ch.data) true).detected := by
          simp [streamLoop, he, hc]
        have hseg3 : (streamLoop (ch :: rest) seg started).seg
            = (streamLoop rest (seg ++ ch.data) true).seg := by
          simp [streamLoop, he, hc]
        rw [hseg2] at hdet
        rw [hseg3] at hopen
        have := ih (seg ++ ch.data) true hdet hopen
        simp [streamLoop, he, hc, List.countP_cons, isRawEv, isDetectEv, this]

/-- C10: when the accumulated buffer comes to contain `</mcp_tool_call>`
without containing `<mcp_tool_call>`, the detector still switches into
tool-call mode (one SYSTEM detection event) but emits no RAW_TOOL_CALL
event in that turn. -/
theorem close_without_open_no_raw (chunks : List String)
    (hdet : (streamLoop chunks [] false).detected = true)
    (hopen : containsSub openTagL (streamLoop chunks [] false).seg = false) :
    ((streamLoop chunks [] false).events).countP isRawEv = 0
      ∧ ((streamLoop chunks [] false).events).countP isDetectEv = 1 :=
  streamLoop_detect_no_open chunks [] false hdet hopen

/-- C10 witness: a fragment carrying only the closing marker. -/
theorem close_without_open_no_raw_witness :
    ((streamLoop ["junk</mcp_tool_call>"] [] false).events).countP isRawEv = 0
      ∧ ((streamLoop ["junk</mcp_tool_call>"] [] false).events).countP isDetectEv = 1 :=
  close_without_open_no_raw ["junk</mcp_tool_call>"] (by decide) (by decide)

/-! ### Claim C2 (corrected) -/

/-- C2 counterexample: under the default `openai` history variant, a turn
whose dispatch completes (one TOOL_RESULT event) leaves the history with
only the seeded system message: the outcome batch was not appended as a
new system-role message. -/
theorem outcomes_not_system_under_openai :
    ((interactive_stream_chat demoEnv "openai" (some "u") demoInit 0 1).1).countP isToolResEv = 1
      ∧ ((interactive_stream_chat demoEnv "openai" (some "u") demoInit 0 1).2).countP isSystemRole = 1 := by
  constructor <;> rfl

/-- C2 amended: the outcome batch of a dispatch-completing turn is appended
to History by `add_message(hostModel, "assistant", outcomeContent, no_tool=False)`;
under the `groq` variant this is exactly one new message with role `system`,
while under the default `openai` variant the batch is recorded as
assistant-role content (merged into the trailing assistant message). -/
theorem outcome_append_roles (msgs : List Message) (recs : List OutcomeRec) :
    add_message "groq" msgs "assistant" (.str (outcomeContent recs)) false
        = msgs ++ [⟨"system", .str (outcomeContent recs)⟩]
      ∧ ((add_message "openai" msgs "assistant"
            (.str (outcomeContent recs)) false).getLast?).map Message.role
        = some "assistant" := by
  constructor
  · simp [add_message, add_message_groq, pyFormat]
  · exact add_message_openai_last_assistant msgs _ false

/-! ### Claim C3 (corrected) -/

/-- C3 counterexample: under the `groq` variant one `add_message` call with
`no_tool=False` (the shape used for assistant turns and tool outcomes)
produces a second system-role entry, so the system message is not unique. -/
theorem groq_breaks_system_uniqueness :
    (applyOps "groq" (initialMessages "p") [demoOp]).countP isSystemRole = 2 := by
  rfl

theorem applyOps_head_preserved (hm : String) (m0 : Message)
    (hrole : m0.role ≠ "assistant") :
    ∀ ops msgs, msgs.head? = some m0 →
      (applyOps hm msgs ops).head? = some m0 := by
  intro ops
  induction ops with
  | nil => intro msgs h; simpa [applyOps] using h
  | cons op rest ih =>
    intro msgs h
    unfold applyOps
    exact ih _ (head_add_message hm msgs op.role op.content op.noTool m0 h hrole)

theorem applyOps_openai_system_count :
    ∀ ops msgs, (∀ op ∈ ops, (op.role == "system") = false) →
      (applyOps "openai" msgs ops).countP isSystemRole = msgs.countP isSystemRole := by
  intro ops
  induction ops with
  | nil => intro msgs _; simp [applyOps]
  | cons op rest ih =>
    intro msgs h
    unfold applyOps
    have hdisp : add_message "openai" msgs op.role op.content op.noTool
        = add_message_openai msgs op.role op.content op.noTool := by
      simp [add_message]
    rw [ih _ (fun o ho => h o (by simp [ho])), hdisp]
    exact countP_add_message_openai_of_ne msgs op.role op.content op.noTool (h op (by simp))

/-- C3 amended: after initialization the system message is always first,
under every history variant and every call sequence; but it is the unique
system-role entry only under the `openai` variant when no caller passes
role `system` — the `groq` variant's `no_tool=False` appends create further
system-role entries. -/
theorem history_system_first (hm : String) (p : String) (ops : List AddOp) :
    (applyOps hm (initialMessages p) ops).head? = some ⟨"system", .str p⟩
      ∧ ((∀ op ∈ ops, (op.role == "system") = false) → hm = "openai" →
          (applyOps hm (initialMessages p) ops).countP isSystemRole = 1) := by
  constructor
  · exact applyOps_head_preserved hm ⟨"system", .str p⟩ (by simp) ops
      (initialMessages p) rfl
  · intro hops hhm
    subst hhm
    rw [applyOps_openai_system_count ops (initialMessages p) hops]
    rfl

/-- C3 witness: one assistant append under the `openai` variant keeps the
system message first and unique. -/
theorem history_system_first_witness :
    (applyOps "openai" (initialMessages "p") [demoOp]).head? = some ⟨"system", .str "p"⟩
      ∧ (applyOps "openai" (initialMessages "p") [demoOp]).countP isSystemRole = 1 :=
  ⟨(history_system_first "openai" "p" [demoOp]).1,
   (history_system_first "openai" "p" [demoOp]).2 (by decide) rfl⟩

/-! ### Claim C8 -/

/-- C8: for a generation stream whose full fragment concatenation never
contains `</mcp_tool_call>`, one websocket turn emits exactly the LLM
events (one per non-empty fragment, in order) followed by the single
STREAM_END marker — in particular no TOOL_CALL events. -/
theorem narration_only_turn (env : Env) (hm : String) (um : String)
    (msgs : List Message) (chunks : List String)
    (hstream : env.stream 0 = .done chunks)
    (hclose : containsSub closeTagL (concatChunks chunks) = false) :
    (hostTurn env hm um msgs).1
      = (chunks.filter (fun c => !c.isEmpty)).map Event.llm ++ [Event.streamEnd] := by
  obtain ⟨he, hs, hd⟩ := streamLoop_no_close chunks [] false (by simpa using hclose)
  unfold hostTurn interactive_stream_chat
  rw [show (15 : Nat) - 0 = 14 + 1 from rfl]
  simp only [iscFuel, runTurn, hstream, afterStream, hd, he]
  simp

/-- C8 witness: a three-fragment narration (one fragment empty). -/
theorem narration_only_turn_witness :
    (hostTurn narrationEnv "openai" "go" demoInit).1
      = [Event.llm "hello ", Event.llm "world", Event.streamEnd] := by
  have h := narration_only_turn narrationEnv "openai" "go" demoInit
    ["hello ", "", "world"] rfl (by decide)
  simpa using h

/-! ### Claim C5 -/

/-- C5: `parse_tool_calls` is total (it returns a list for every input),
and when it returns no call for a detected envelope the orchestrator emits
the stream events followed by exactly one ERROR event and ends the turn:
no TOOL_CALL or TOOL_RESULT event (the gateway is never invoked) and no
continuation. -/
theorem parse_failure_turn (env : Env) (hm : String) (msgs : List Message)
    (depth maxDepth : Nat) (chunks : List String)
    (hlt : depth < maxDepth)
    (hstream : env.stream depth = .done chunks)
    (hdet : (streamLoop chunks [] false).detected = true)
    (hparse : (parse_tool_calls env.repairParse
        ⟨(streamLoop chunks [] false).seg⟩).isEmpty = true) :
    (interactive_stream_chat env hm none msgs depth maxDepth).1
        = (streamLoop chunks [] false).events ++ [Event.error parseFailMsg]
      ∧ ((interactive_stream_chat env hm none msgs depth maxDepth).1).countP isErrEv = 1
      ∧ ((interactive_stream_chat env hm none msgs depth maxDepth).1).countP isToolCallEv = 0
      ∧ ((interactive_stream_chat env hm none msgs depth maxDepth).1).countP isToolResEv = 0
      ∧ ((interactive_stream_chat env hm none msgs depth maxDepth).1).countP isContEv = 0 := by
  have hfuel : maxDepth - depth = (maxDepth - depth - 1) + 1 := by omega
  have hmain : (interactive_stream_chat env hm none msgs depth maxDepth).1
      = (streamLoop chunks [] false).events ++ [Event.error parseFailMsg] := by
    unfold interactive_stream_chat
    rw [hfuel]
    simp only [iscFuel, runTurn, hstream, afterStream, hdet, hparse]
    simp
  have hcE := streamLoop_countP isErrEv (fun _ => rfl) (by decide) (fun _ => rfl)
    chunks [] false
  have hcT := streamLoop_countP isToolCallEv (fun _ => rfl) (by decide) (fun _ => rfl)
    chunks [] false
  have hcR := streamLoop_countP isToolResEv (fun _ => rfl) (by decide) (fun _ => rfl)
    chunks [] false
  have hcC := streamLoop_countP isContEv (fun _ => rfl) (by decide) (fun _ => rfl)
    chunks [] false
  refine ⟨hmain, ?_, ?_, ?_, ?_⟩ <;>
    rw [hmain] <;>
    simp [List.countP_append, List.countP_cons, hcE, hcT, hcR, hcC, isErrEv,
      isToolCallEv, isToolResEv, isContEv]

/-- C5 witness: an envelope with no `<tool_name>` tag. -/
theorem parse_failure_turn_witness :
    (interactive_stream_chat badParseEnv "openai" none demoInit 0 15).1
        = (streamLoop ["<mcp_tool_call>junk</mcp_tool_call>"] [] false).events
          ++ [Event.error parseFailMsg]
      ∧ ((interactive_stream_chat badParseEnv "openai" none demoInit 0 15).1).countP isErrEv = 1
      ∧ ((interactive_stream_chat badParseEnv "openai" none demoInit 0 15).1).countP isToolCallEv = 0
      ∧ ((interactive_stream_chat badParseEnv "openai" none demoInit 0 15).1).countP isToolResEv = 0
      ∧ ((interactive_stream_chat badParseEnv "openai" none demoInit 0 15).1).countP isContEv = 0 :=
  parse_failure_turn badParseEnv "openai" demoInit 0 15
    ["<mcp_tool_call>junk</mcp_tool_call>"] (by omega) rfl (by decide) (by decide)

/-! ### Claim C9 (corrected) -/

/-- C9 counterexample: under the `groq` history variant a mid-stream fault
is recorded with role `system`, not `assistant` — the final history of a
faulting turn holds no assistant entry at all. -/
theorem stream_fault_groq_records_system :
    (interactive_stream_chat faultEnv "groq" none demoInit 0 15).2
      = [⟨"system", .str "sys"⟩, ⟨"system", .str "Error during LLM stream: boom"⟩] := by
  rfl

/-- C9 amended: a provider stream that raises mid-consumption (before any
envelope detection) yields the narration events plus exactly one ERROR
event carrying the fault description, no dispatch event, no continuation;
the fault text is recorded in History via
`add_message("assistant", ..., no_tool=False)`, which under the default
`openai` variant leaves an assistant-role message last — under the `groq`
variant the same call stores it as a system-role entry. -/
theorem stream_fault_turn_openai (env : Env) (msgs : List Message)
    (depth maxDepth : Nat) (chunks : List String) (err : String)
    (hlt : depth < maxDepth)
    (hstream : env.stream depth = .fault chunks err)
    (hdet : (streamLoop chunks [] false).detected = false) :
    (interactive_stream_chat env "openai" none msgs depth maxDepth).1
        = (streamLoop chunks [] false).events
          ++ [Event.error ("Error during LLM stream: " ++ err)]
      ∧ ((interactive_stream_chat env "openai" none msgs depth maxDepth).1).countP isErrEv = 1
      ∧ ((interactive_stream_chat env "openai" none msgs depth maxDepth).1).countP isToolCallEv = 0
      ∧ ((interactive_stream_chat env "openai" none msgs depth maxDepth).1).countP isToolResEv = 0
      ∧ ((interactive_stream_chat env "openai" none msgs depth maxDepth).1).countP isContEv = 0
      ∧ (interactive_stream_chat env "openai" none msgs depth maxDepth).2
          = add_message "openai" msgs "assistant"
              (.str ("Error during LLM stream: " ++ err)) false
      ∧ (((interactive_stream_chat env "openai" none msgs depth maxDepth).2).getLast?).map
          Message.role = some "assistant" := by
  have hfuel : maxDepth - depth = (maxDepth - depth - 1) + 1 := by omega
  have hrun : interactive_stream_chat env "openai" none msgs depth maxDepth
      = ((streamLoop chunks [] false).events
            ++ [Event.error ("Error during LLM stream: " ++ err)],
          add_message "openai" msgs "assistant"
            (.str ("Error during LLM stream: " ++ err)) false) := by
    unfold interactive_stream_chat
    rw [hfuel]
    simp only [iscFuel, runTurn, hstream, hdet]
    simp
  have hcE := streamLoop_countP isErrEv (fun _ => rfl) (by decide) (fun _ => rfl)
    chunks [] false
  have hcT := streamLoop_countP isToolCallEv (fun _ => rfl) (by decide) (fun _ => rfl)
    chunks [] false
  have hcR := streamLoop_countP isToolResEv (fun _ => rfl) (by decide) (fun _ => rfl)
    chunks [] false
  have hcC := streamLoop_countP isContEv (fun _ => rfl) (by decide) (fun _ => rfl)
    chunks [] false
  refine ⟨?_, ?_, ?_, ?_, ?_, ?_, ?_⟩ <;> rw [hrun]
  · simp [List.countP_append, List.countP_cons, hcE, isErrEv]
  · simp [List.countP_append, List.countP_cons, hcT, isToolCallEv]
  · simp [List.countP_append, List.countP_cons, hcR, isToolResEv]
  · simp [List.countP_append, List.countP_cons, hcC, isContEv]
  · exact add_message_openai_last_assistant msgs _ false

/-- C9 witness: a one-fragment stream that then raises. -/
theorem stream_fault_turn_openai_witness :
    (interactive_stream_chat faultEnv "openai" none demoInit 0 15).1
        = (streamLoop ["partial"] [] false).events
          ++ [Event.error ("Error during LLM stream: " ++ "boom")]
      ∧ ((interactive_stream_chat faultEnv "openai" none demoInit 0 15).1).countP isErrEv = 1
      ∧ ((interactive_stream_chat faultEnv "openai" none demoInit 0 15).1).countP isToolCallEv = 0
      ∧ ((interactive_stream_chat faultEnv "openai" none demoInit 0 15).1).countP isToolResEv = 0
      ∧ ((interactive_stream_chat faultEnv "openai" none demoInit 0 15).1).countP isContEv = 0
      ∧ (interactive_stream_chat faultEnv "openai" none demoInit 0 15).2
          = add_message "openai" demoInit "assistant"
              (.str ("Error during LLM stream: " ++ "boom")) false
      ∧ (((interactive_stream_chat faultEnv "openai" none demoInit 0 15).2).getLast?).map
          Message.role = some "assistant" :=
  stream_fault_turn_openai faultEnv demoInit 0 15 ["partial"] "boom"
    (by omega) rfl (by decide)

/-! ### Claim C1 -/

theorem iscFuel_counts (env : Env) (hm : String)
    (H : ∀ d, turnProducesCall env d = true) :
    ∀ fuel depth msgs um maxDepth,
      ((iscFuel env hm fuel um msgs depth maxDepth).1).countP isContEv = fuel
        ∧ ((iscFuel env hm fuel um msgs depth maxDepth).1).countP isBoundEv = 1
        ∧ ((iscFuel env hm fuel um msgs depth maxDepth).1).getLast?
            = some (.system boundMsg) := by
  intro fuel
  induction fuel with
  | zero =>
    intro depth msgs um maxDepth
    simp only [iscFuel]
    refine ⟨by decide, by decide, rfl⟩
  | succ fuel ih =>
    intro depth msgs um maxDepth
    have Hd := H depth
    unfold turnProducesCall at Hd
    cases hstream : env.stream depth with
    | fault cs e => rw [hstream] at Hd; simp at Hd
    | done cs =>
      rw [hstream] at Hd
      simp only [Bool.and_eq_true, Bool.not_eq_true'] at Hd
      obtain ⟨hdet, hne⟩ := Hd
      have hcC := streamLoop_countP isContEv (fun _ => rfl) (by decide) (fun _ => rfl)
        cs [] false
      have hcB := streamLoop_countP isBoundEv (fun _ => rfl) (by decide) (fun _ => rfl)
        cs [] false
      have hdC := dispatchCalls_countP env depth isContEv (fun _ _ => rfl)
        (fun _ _ _ => rfl)
        (parse_tool_calls env.repairParse ⟨(streamLoop cs [] false).seg⟩)
      have hdB := dispatchCalls_countP env depth isBoundEv (fun _ _ => rfl)
        (fun _ _ _ => rfl)
        (parse_tool_calls env.repairParse ⟨(streamLoop cs [] false).seg⟩)
      have ihC : ∀ m, ((iscFuel env hm fuel none m (depth + 1) maxDepth).1).countP isContEv
          = fuel := fun m => (ih (depth + 1) m none maxDepth).1
      have ihB : ∀ m, ((iscFuel env hm fuel none m (depth + 1) maxDepth).1).countP isBoundEv
          = 1 := fun m => (ih (depth + 1) m none maxDepth).2.1
      have ihL : ∀ m, ((iscFuel env hm fuel none m (depth + 1) maxDepth).1).getLast?
          = some (.system boundMsg) := fun m => (ih (depth + 1) m none maxDepth).2.2
      simp only [iscFuel, runTurn, hstream, afterStream, hdet, hne]
      simp only [Bool.false_eq_true, if_false, if_true, Bool.not_eq_true]
      refine ⟨?_, ?_, ?_⟩
      · simp [List.countP_append, List.countP_cons, hcC, hdC, isContEv, ihC,
          show ¬(execMsg = contMsg) by decide]
      · simp [List.countP_append, List.countP_cons, hcB, hdB, isBoundEv, ihB,
          show ¬(execMsg = boundMsg) by decide, show ¬(contMsg = boundMsg) by decide]
      · rw [List.getLast?_append_of_ne_nil _
          (by intro hnil; exact absurd (hnil ▸ ihL _) (by simp))]
        exact ihL _

/-- C1: when every turn's stream completes with a detected envelope whose
extraction yields a call, `interactive_stream_chat` from depth 0 emits
exactly `maxDepth` continuation SYSTEM events (one per recursive
continuation) and the trace ends with the single bound-reached SYSTEM
event: the recursion never exceeds the bound. -/
theorem interactive_stream_chat_depth_bound (env : Env) (hm : String)
    (msgs : List Message) (maxDepth : Nat)
    (H : ∀ d, turnProducesCall env d = true) :
    ((interactive_stream_chat env hm none msgs 0 maxDepth).1).countP isContEv = maxDepth
      ∧ ((interactive_stream_chat env hm none msgs 0 maxDepth).1).countP isBoundEv = 1
      ∧ ((interactive_stream_chat env hm none msgs 0 maxDepth).1).getLast?
          = some (.system boundMsg) := by
  unfold interactive_stream_chat
  rw [Nat.sub_zero]
  exact iscFuel_counts env hm H maxDepth 0 msgs none maxDepth

/-- C1 witness: the always-tool-calling demo session at bound 2. -/
theorem interactive_stream_chat_depth_bound_witness :
    ((interactive_stream_chat demoEnv "openai" none demoInit 0 2).1).countP isContEv = 2
      ∧ ((interactive_stream_chat demoEnv "openai" none demoInit 0 2).1).countP isBoundEv = 1
      ∧ ((interactive_stream_chat demoEnv "openai" none demoInit 0 2).1).getLast?
          = some (.system boundMsg) :=
  interactive_stream_chat_depth_bound demoEnv "openai" demoInit 2 (fun _ => rfl)

/-! ### Claim C4 -/

theorem headNotWs_append_left (a x : List Char) (ha : a ≠ [])
    (h : headNotWs a = true) : headNotWs (a ++ x) = true := by
  cases a with
  | nil => exact absurd rfl ha
  | cons c t => simpa [headNotWs] using h

theorem headNotWs_append_right (l m : List Char) (hm : m ≠ [])
    (h : headNotWs m.reverse = true) : headNotWs (l ++ m).reverse = true := by
  rw [List.reverse_append]
  cases hmr : m.reverse with
  | nil =>
    exfalso
    exact hm (by simpa using congrArg List.reverse hmr)
  | cons c t =>
    rw [hmr] at h
    simpa [headNotWs] using h

theorem ne_lt_of_not_mem (l : List Char) (h : '<' ∉ l) : ∀ c ∈ l, c ≠ '<' :=
  fun c hc he => h (he ▸ hc)

theorem append_right_ne_nil (a b : List Char) (hb : b ≠ []) : a ++ b ≠ [] := by
  intro h
  rw [List.append_eq_nil] at h
  exact hb h.2

theorem findSub_wrap_close (nd ad : List Char) (hn : '<' ∉ nd) (ha : '<' ∉ ad) :
    findSub closeTagL
        (tnOpenL ++ (nd ++ (tnCloseL ++ (argOpenL ++ (ad ++ (argCloseL ++ closeTagL))))))
      = some (46 + (nd.length + ad.length)) := by
  rw [findSub_skip_lit closeTagL tnOpenL _ (by decide)]
  rw [findSub_append_clean '<' closeTagL nd _ rfl (ne_lt_of_not_mem nd hn)]
  rw [findSub_skip_lit closeTagL tnCloseL _ (by decide)]
  rw [findSub_skip_lit closeTagL argOpenL _ (by decide)]
  rw [findSub_append_clean '<' closeTagL ad _ rfl (ne_lt_of_not_mem ad ha)]
  rw [findSub_skip_lit closeTagL argCloseL _ (by decide)]
  rw [findSub_of_pre closeTagL closeTagL (by rw [List.isPrefixOf_iff_prefix])]
  simp only [Option.map_some', Option.some.injEq]
  have l1 : tnOpenL.length = 11 := rfl
  have l2 : tnCloseL.length = 12 := rfl
  have l3 : argOpenL.length = 11 := rfl
  have l4 : argCloseL.length = 12 := rfl
  omega

theorem findSub_mid_open_none (nd ad : List Char) (hn : '<' ∉ nd) (ha : '<' ∉ ad) :
    findSub openTagL (tnOpenL ++ (nd ++ (tnCloseL ++ (argOpenL ++ (ad ++ argCloseL)))))
      = none := by
  rw [findSub_skip_lit openTagL tnOpenL _ (by decide)]
  rw [findSub_append_clean '<' openTagL nd _ rfl (ne_lt_of_not_mem nd hn)]
  rw [findSub_skip_lit openTagL tnCloseL _ (by decide)]
  rw [findSub_skip_lit openTagL argOpenL _ (by decide)]
  rw [findSub_append_clean '<' openTagL ad _ rfl (ne_lt_of_not_mem ad ha)]
  rw [(by decide : findSub openTagL argCloseL = none)]
  rfl

theorem findSub_name_close (nd rest' : List Char) (hn : '<' ∉ nd) :
    findSub tnCloseL (nd ++ (tnCloseL ++ rest')) = some nd.length := by
  rw [findSub_append_clean '<' tnCloseL nd _ rfl (ne_lt_of_not_mem nd hn)]
  rw [findSub_of_pre tnCloseL _ (by rw [List.isPrefixOf_iff_prefix]; exact List.prefix_append _ _)]
  simp

theorem findSub_mid_argOpen (nd ad : List Char) (hn : '<' ∉ nd) :
    findSub argOpenL (tnOpenL ++ (nd ++ (tnCloseL ++ (argOpenL ++ (ad ++ argCloseL)))))
      = some (23 + nd.length) := by
  rw [findSub_skip_lit argOpenL tnOpenL _ (by decide)]
  rw [findSub_append_clean '<' argOpenL nd _ rfl (ne_lt_of_not_mem nd hn)]
  rw [findSub_skip_lit argOpenL tnCloseL _ (by decide)]
  rw [findSub_of_pre argOpenL _ (by rw [List.isPrefixOf_iff_prefix]; exact List.prefix_append _ _)]
  simp only [Option.map_some', Option.some.injEq]
  have l1 : tnOpenL.length = 11 := rfl
  have l2 : tnCloseL.length = 12 := rfl
  omega

theorem strip_mid_eq (nd ad : List Char) (hn2 : headNotWs nd = true)
    (ha0 : ad ≠ []) (ha2 : headNotWs ad = true) (ha3 : headNotWs ad.reverse = true) :
    stripChars (tnOpenL ++ (nd ++ (tnCloseL ++ (argOpenL ++ (ad ++ argCloseL)))))
      = tnOpenL ++ (nd ++ (tnCloseL ++ (argOpenL ++ (ad ++ argCloseL)))) := by
  apply stripChars_eq_self
  · rfl
  · have e1 : headNotWs (ad ++ argCloseL).reverse = true :=
      headNotWs_append_right ad argCloseL (by decide) (by decide)
    have n1 : (ad ++ argCloseL) ≠ [] := append_right_ne_nil _ _ (by decide)
    have e2 := headNotWs_append_right argOpenL _ n1 e1
    have n2 : (argOpenL ++ (ad ++ argCloseL)) ≠ [] := append_right_ne_nil _ _ n1
    have e3 := headNotWs_append_right tnCloseL _ n2 e2
    have n3 : (tnCloseL ++ (argOpenL ++ (ad ++ argCloseL))) ≠ [] := append_right_ne_nil _ _ n2
    have e4 := headNotWs_append_right nd _ n3 e3
    have n4 : (nd ++ (tnCloseL ++ (argOpenL ++ (ad ++ argCloseL)))) ≠ [] :=
      append_right_ne_nil _ _ n3
    exact headNotWs_append_right tnOpenL _ n4 e4

/-- C4: for an envelope with a well-formed tool name and non-empty argument
text (both free of markup characters and surrounding whitespace), with the
repair-then-parse pass returning `v` on the raw argument text the extractor
produces (the text with the trailing `</arguments>` in the wrapped form,
the bare text in the unwrapped fallback form), `parse_tool_calls` returns
exactly one request whose name and arguments equal the envelope's fields —
for both accepted envelope forms. -/
theorem parse_tool_calls_exact (rp : String → Option JsonVal)
    (name args : String) (v : JsonVal)
    (hn0 : name.data ≠ []) (hn1 : '<' ∉ name.data)
    (hn2 : headNotWs name.data = true) (hn3 : headNotWs name.data.reverse = true)
    (ha0 : args.data ≠ []) (ha1 : '<' ∉ args.data)
    (ha2 : headNotWs args.data = true) (ha3 : headNotWs args.data.reverse = true)
    (hw : rp (args ++ "</arguments>") = some v)
    (hb : rp args = some v) :
    parse_tool_calls rp (wrapEnv name args) = [⟨name, v⟩]
      ∧ parse_tool_calls rp (bareEnv name args) = [⟨name, v⟩] := by
  have lt1 : tnOpenL.length = 11 := rfl
  have lt2 : tnCloseL.length = 12 := rfl
  have lt3 : argOpenL.length = 11 := rfl
  have lt4 : argCloseL.length = 12 := rfl
  have hstrip := strip_mid_eq name.data args.data hn2 ha0 ha2 ha3
  have hWdata : (wrapEnv name args).data
      = openTagL ++ (tnOpenL ++ (name.data ++ (tnCloseL ++ (argOpenL
          ++ (args.data ++ (argCloseL ++ closeTagL)))))) := by
    show (((("<mcp_tool_call><tool_name>" ++ name) ++ "</tool_name><arguments>")
        ++ args) ++ "</arguments></mcp_tool_call>").data = _
    rw [String.data_append, String.data_append, String.data_append, String.data_append]
    rw [show ("<mcp_tool_call><tool_name>" : String).data = openTagL ++ tnOpenL from rfl]
    rw [show ("</tool_name><arguments>" : String).data = tnCloseL ++ argOpenL from rfl]
    rw [show ("</arguments></mcp_tool_call>" : String).data = argCloseL ++ closeTagL from rfl]
    simp [List.append_assoc]
  have hBdata : (bareEnv name args).data
      = tnOpenL ++ (name.data ++ (tnCloseL ++ (argOpenL ++ (args.data ++ argCloseL)))) := by
    show (((("<tool_name>" ++ name) ++ "</tool_name><arguments>")
        ++ args) ++ "</arguments>").data = _
    rw [String.data_append, String.data_append, String.data_append, String.data_append]
    rw [show ("<tool_name>" : String).data = tnOpenL from rfl]
    rw [show ("</tool_name><arguments>" : String).data = tnCloseL ++ argOpenL from rfl]
    rw [show ("</arguments>" : String).data = argCloseL from rfl]
    simp [List.append_assoc]
  have hpreW : findSub openTagL (openTagL ++ (tnOpenL ++ (name.data ++ (tnCloseL
      ++ (argOpenL ++ (args.data ++ (argCloseL ++ closeTagL))))))) = some 0 :=
    findSub_of_pre _ _ (by rw [List.isPrefixOf_iff_prefix]; exact List.prefix_append _ _)
  have hcloseW := findSub_wrap_close name.data args.data hn1 ha1
  have htakeW : (tnOpenL ++ (name.data ++ (tnCloseL ++ (argOpenL
        ++ (args.data ++ (argCloseL ++ closeTagL)))))).take
          (46 + (name.data.length + args.data.length))
      = tnOpenL ++ (name.data ++ (tnCloseL ++ (argOpenL ++ (args.data ++ argCloseL)))) := by
    rw [show tnOpenL ++ (name.data ++ (tnCloseL ++ (argOpenL
          ++ (args.data ++ (argCloseL ++ closeTagL)))))
        = (tnOpenL ++ (name.data ++ (tnCloseL ++ (argOpenL ++ (args.data ++ argCloseL)))))
            ++ closeTagL from by simp [List.append_assoc]]
    exact List.take_left' (by simp only [List.length_append, lt1, lt2, lt3, lt4]; omega)
  have hFBw : findBetween openTagL closeTagL (wrapEnv name args).data
      = some (tnOpenL ++ (name.data ++ (tnCloseL ++ (argOpenL
          ++ (args.data ++ argCloseL))))) := by
    rw [hWdata]
    simp only [findBetween, hpreW, Nat.zero_add, List.drop_left, hcloseW, htakeW]
  have hTN : findBetween tnOpenL tnCloseL
      (tnOpenL ++ (name.data ++ (tnCloseL ++ (argOpenL ++ (args.data ++ argCloseL)))))
      = some name.data := by
    have hpre2 : findSub tnOpenL (tnOpenL ++ (name.data ++ (tnCloseL
        ++ (argOpenL ++ (args.data ++ argCloseL))))) = some 0 :=
      findSub_of_pre _ _ (by rw [List.isPrefixOf_iff_prefix]; exact List.prefix_append _ _)
    have hclose2 := findSub_name_close name.data
      (argOpenL ++ (args.data ++ argCloseL)) hn1
    have htake2 : (name.data ++ (tnCloseL ++ (argOpenL
        ++ (args.data ++ argCloseL)))).take name.data.length = name.data :=
      List.take_left' rfl
    simp only [findBetween, hpre2, Nat.zero_add, List.drop_left, hclose2, htake2]
  have hAI := findSub_mid_argOpen name.data args.data hn1
  have hdropArgs : (tnOpenL ++ (name.data ++ (tnCloseL ++ (argOpenL
        ++ (args.data ++ argCloseL))))).drop (23 + name.data.length + argOpenL.length)
      = args.data ++ argCloseL := by
    rw [show tnOpenL ++ (name.data ++ (tnCloseL ++ (argOpenL ++ (args.data ++ argCloseL))))
        = (tnOpenL ++ (name.data ++ (tnCloseL ++ argOpenL))) ++ (args.data ++ argCloseL)
      from by simp [List.append_assoc]]
    exact List.drop_left' (by simp only [List.length_append, lt1, lt2, lt3]; omega)
  have hstripName : stripChars name.data = name.data := stripChars_eq_self _ hn2 hn3
  have hstripArgs : stripChars (args.data ++ argCloseL) = args.data ++ argCloseL :=
    stripChars_eq_self _ (headNotWs_append_left args.data argCloseL ha0 ha2)
      (headNotWs_append_right args.data argCloseL (by decide) (by decide))
  have hfinW : finishParse rp name.data (args.data ++ argCloseL) = [⟨name, v⟩] := by
    have hne : (args.data ++ argCloseL).isEmpty = false := by
      cases had : args.data with
      | nil => exact absurd had ha0
      | cons c t => rfl
    have hstr : (⟨args.data ++ argCloseL⟩ : String) = args ++ "</arguments>" :=
      String.ext rfl
    unfold finishParse
    rw [hne, hstr, hw]
    rfl
  have hw1 : parse_tool_calls rp (wrapEnv name args) = [⟨name, v⟩] := by
    simp only [parse_tool_calls]
    rw [hFBw]
    simp only [hstrip, hTN, hAI, hdropArgs, hstripName, hstripArgs, hfinW]
  have hFBb : findBetween openTagL closeTagL (bareEnv name args).data = none := by
    rw [hBdata]
    simp only [findBetween, findSub_mid_open_none name.data args.data hn1 ha1]
  have hPI : parseInner (stripChars (bareEnv name args).data)
      = some (name.data, args.data) := by
    rw [hBdata, hstrip]
    have hdw : (tnOpenL ++ (name.data ++ (tnCloseL ++ (argOpenL
        ++ (args.data ++ argCloseL))))).dropWhile wsBool
        = tnOpenL ++ (name.data ++ (tnCloseL ++ (argOpenL ++ (args.data ++ argCloseL)))) :=
      dropWhileWs_eq_self _ rfl
    have hpre3 : tnOpenL.isPrefixOf (tnOpenL ++ (name.data ++ (tnCloseL
        ++ (argOpenL ++ (args.data ++ argCloseL))))) = true := by
      rw [List.isPrefixOf_iff_prefix]; exact List.prefix_append _ _
    have hclose3 := findSub_name_close name.data (argOpenL ++ (args.data ++ argCloseL)) hn1
    have htake3 : (name.data ++ (tnCloseL ++ (argOpenL
        ++ (args.data ++ argCloseL)))).take name.data.length = name.data :=
      List.take_left' rfl
    have hdrop3 : (name.data ++ (tnCloseL ++ (argOpenL
        ++ (args.data ++ argCloseL)))).drop (name.data.length + tnCloseL.length)
        = argOpenL ++ (args.data ++ argCloseL) := by
      rw [show name.data ++ (tnCloseL ++ (argOpenL ++ (args.data ++ argCloseL)))
          = (name.data ++ tnCloseL) ++ (argOpenL ++ (args.data ++ argCloseL))
        from by simp [List.append_assoc]]
      exact List.drop_left' (by simp only [List.length_append, lt2])
    have hdw2 : (argOpenL ++ (args.data ++ argCloseL)).dropWhile wsBool
        = argOpenL ++ (args.data ++ argCloseL) := dropWhileWs_eq_self _ rfl
    have hpre4 : argOpenL.isPrefixOf (argOpenL ++ (args.data ++ argCloseL)) = true := by
      rw [List.isPrefixOf_iff_prefix]; exact List.prefix_append _ _
    have hsplit := splitAtCloseWs_append args.data (ne_lt_of_not_mem args.data ha1)
    simp only [parseInner, hdw, hpre3, if_true, List.drop_left, hclose3, htake3,
      hdrop3, hdw2, hpre4, hsplit]
  have hfinB : finishParse rp name.data args.data = [⟨name, v⟩] := by
    have hne : args.data.isEmpty = false := by
      cases had : args.data with
      | nil => exact absurd had ha0
      | cons c t => rfl
    have hstr : (⟨args.data⟩ : String) = args := rfl
    unfold finishParse
    rw [hne, hstr, hb]
    rfl
  have hb1 : parse_tool_calls rp (bareEnv name args) = [⟨name, v⟩] := by
    simp only [parse_tool_calls]
    rw [hFBb]
    simp only [hPI, hstripName]
    rw [show stripChars args.data = args.data from
      stripChars_eq_self _ ha2 ha3]
    exact hfinB
  exact ⟨hw1, hb1⟩

/-- C4 witness: tool name `tn` with argument text `[1]` parsing to the
one-element JSON array, in both envelope forms. -/
theorem parse_tool_calls_exact_witness :
    parse_tool_calls demoRepair (wrapEnv "tn" "[1]") = [⟨"tn", .arr [.num 1]⟩]
      ∧ parse_tool_calls demoRepair (bareEnv "tn" "[1]") = [⟨"tn", .arr [.num 1]⟩] :=
  parse_tool_calls_exact demoRepair "tn" "[1]" (.arr [.num 1])
    (by decide) (by decide) (by decide) (by decide)
    (by decide) (by decide) (by decide) (by decide) rfl rfl
